import Mathlib

/-!
Shallow embedding of the retry-policy engine (`src/01_retry.js`) of the
`functional-programming` repository.

A `RetryStatus` records how many attempts have been made and the delay
decided at the previous step (`none` on the initial status).  A
`RetryPolicy` maps a status to either a numeric delay (`some d`) or the
decision to stop retrying (`none`, the JS `undefined`).  JS numbers are
modelled as integers, which represent exactly every value occurring in the
module and its scenarios; the order-theoretic combinator semantics
(`Math.min` / `Math.max`) is carrier independent.
-/

structure RetryStatus where
  iterNumber : Nat
  previousDelay : Option ℤ
deriving DecidableEq

/-- `startStatus` of the source: `{iterNumber: 0, previousDelay: undefined}`. -/
def startStatus : RetryStatus := ⟨0, none⟩

abbrev RetryPolicy := RetryStatus → Option ℤ

/-- `constantDelay(delay)`: constant delay with unlimited retries. -/
def constantDelay (delay : ℤ) : RetryPolicy := fun _ => some delay

/-- `limitRetries(i)`: `status.iterNumber >= i ? undefined : 0`. -/
def limitRetries (i : Int) : RetryPolicy := fun status =>
  if (status.iterNumber : Int) ≥ i then none else some 0

/-- `exponentialBackoff(delay)`: `delay * Math.pow(2, status.iterNumber)`. -/
def exponentialBackoff (delay : ℤ) : RetryPolicy := fun status =>
  some (delay * 2 ^ status.iterNumber)

/-- `capDelay(maxDelay)(policy)`: clamp a yielded delay to
`Math.min(maxDelay, delay)`; pass `undefined` through. -/
def capDelay (maxDelay : ℤ) (policy : RetryPolicy) : RetryPolicy := fun status =>
  match policy status with
  | none => none
  | some delay => some (min maxDelay delay)

/-- `concat(second)(first)`: evaluate both policies on the status; if both
yield delays return `Math.max` of them, otherwise `undefined`. -/
def concat (second : RetryPolicy) (first : RetryPolicy) : RetryPolicy := fun status =>
  match first status, second status with
  | some delay1, some delay2 => some (max delay1 delay2)
  | _, _ => none

/-- `applyPolicy(policy)(status)`: the single state-transition step. -/
def applyPolicy (policy : RetryPolicy) (status : RetryStatus) : RetryStatus :=
  ⟨status.iterNumber + 1, policy status⟩

/-- The loop body of `dryRun`, made total with a `fuel` bound on the number
of iterations: starting from `status`, apply the policy, record the produced
status, and continue while the produced status has a delay.  For any `fuel`
at least the length of the (terminating) JS run, this agrees with the JS
`while` loop. -/
def dryRunAux (policy : RetryPolicy) : Nat → RetryStatus → List RetryStatus
  | 0, _ => []
  | fuel + 1, status =>
      if (applyPolicy policy status).previousDelay = none then
        [applyPolicy policy status]
      else
        applyPolicy policy status :: dryRunAux policy fuel (applyPolicy policy status)

/-- `dryRun(policy)`: run the loop from `startStatus` (with fuel). -/
def dryRun (policy : RetryPolicy) (fuel : Nat) : List RetryStatus :=
  dryRunAux policy fuel startStatus

/-- A produced sequence is a complete run of the JS loop exactly when its
last element carries `previousDelay = undefined` (the loop has stopped). -/
def runComplete (l : List RetryStatus) : Prop :=
  ∃ s, l.getLast? = some s ∧ s.previousDelay = none

/-- fp-ts `pipe` with three functions, as used for `myPolicy`. -/
def pipe {α β γ δ : Type} (a : α) (f : α → β) (g : β → γ) (h : γ → δ) : δ :=
  h (g (f a))

/-- `myPolicy` of the source. -/
def myPolicy : RetryPolicy :=
  pipe (constantDelay 300) (concat (exponentialBackoff 200))
    (concat (limitRetries 5)) (capDelay 2000)

/-! ### Helper lemmas about the simulation loop -/

lemma runComplete_not_nil : ¬ runComplete ([] : List RetryStatus) := by
  rintro ⟨t, ht, -⟩
  simp at ht

/-- Once the recorded run is complete, one more unit of fuel does not change
the output: the loop had already stopped. -/
lemma dryRunAux_succ_of_complete (policy : RetryPolicy) :
    ∀ (fuel : Nat) (s : RetryStatus), runComplete (dryRunAux policy fuel s) →
      dryRunAux policy (fuel + 1) s = dryRunAux policy fuel s := by
  intro fuel
  induction fuel with
  | zero =>
      intro s h
      exact absurd h runComplete_not_nil
  | succ n ih =>
      intro s h
      by_cases hd : (applyPolicy policy s).previousDelay = none
      · simp [dryRunAux, hd]
      · rcases hrest : dryRunAux policy n (applyPolicy policy s) with _ | ⟨b, l⟩
        · rcases h with ⟨u, hu, hnone⟩
          rw [dryRunAux, if_neg hd, hrest] at hu
          simp at hu
          exact absurd (hu ▸ hnone) hd
        · have hcomp : runComplete (dryRunAux policy n (applyPolicy policy s)) := by
            rcases h with ⟨u, hu, hnone⟩
            rw [dryRunAux, if_neg hd, hrest, List.getLast?_cons_cons] at hu
            exact ⟨u, by rw [hrest]; exact hu, hnone⟩
          have hih := ih (applyPolicy policy s) hcomp
          rw [dryRunAux, if_neg hd, hih, dryRunAux, if_neg hd]

/-- Fuel-stability: any fuel bound at least as large as one that completes
the run produces the same output. -/
lemma dryRunAux_eq_of_le (policy : RetryPolicy) {fuel fuel' : Nat}
    (hle : fuel ≤ fuel') (s : RetryStatus)
    (h : runComplete (dryRunAux policy fuel s)) :
    dryRunAux policy fuel' s = dryRunAux policy fuel s := by
  induction fuel', hle using Nat.le_induction with
  | base => rfl
  | succ m hm ihm =>
      have hcomp : runComplete (dryRunAux policy m s) := by rw [ihm]; exact h
      rw [dryRunAux_succ_of_complete policy m s hcomp, ihm]

/-- The `iterNumber` fields of the recorded statuses count up from
`s.iterNumber + 1`. -/
lemma dryRunAux_map_iterNumber (policy : RetryPolicy) :
    ∀ (fuel : Nat) (s : RetryStatus),
      (dryRunAux policy fuel s).map (fun t => t.iterNumber)
        = List.range' (s.iterNumber + 1) (dryRunAux policy fuel s).length := by
  intro fuel
  induction fuel with
  | zero => intro s; simp [dryRunAux]
  | succ n ih =>
      intro s
      by_cases hd : (applyPolicy policy s).previousDelay = none
      · rw [dryRunAux, if_pos hd]
        simp [applyPolicy, List.range'_one]
      · have hih := ih (applyPolicy policy s)
        rw [dryRunAux, if_neg hd]
        simp only [List.map_cons, List.length_cons, List.range'_succ]
        rw [hih]
        simp [applyPolicy]

/-- Every recorded status except possibly the last one carries a delay. -/
lemma dryRunAux_dropLast_delay (policy : RetryPolicy) :
    ∀ (fuel : Nat) (s : RetryStatus),
      ∀ t ∈ (dryRunAux policy fuel s).dropLast, t.previousDelay ≠ none := by
  intro fuel
  induction fuel with
  | zero => intro s t ht; simp [dryRunAux] at ht
  | succ n ih =>
      intro s t ht
      by_cases hd : (applyPolicy policy s).previousDelay = none
      · rw [dryRunAux, if_pos hd] at ht
        simp at ht
      · rw [dryRunAux, if_neg hd] at ht
        rcases hrest : dryRunAux policy n (applyPolicy policy s) with _ | ⟨b, l⟩
        · rw [hrest] at ht
          simp at ht
        · rw [hrest] at ht
          have hdl : (applyPolicy policy s :: b :: l).dropLast
              = applyPolicy policy s :: (b :: l).dropLast := rfl
          rw [hdl, List.mem_cons] at ht
          rcases ht with ht | ht
          · rw [ht]; exact hd
          · exact ih (applyPolicy policy s) t (by rw [hrest]; exact ht)

/-- Index form of `dryRunAux_map_iterNumber`, for the run from
`startStatus`: the `i`-th recorded status has `iterNumber = 1 + i`. -/
lemma dryRun_get_iterNumber (policy : RetryPolicy) (fuel i : Nat)
    (h : i < (dryRun policy fuel).length) :
    ((dryRun policy fuel).get ⟨i, h⟩).iterNumber = 1 + i := by
  have hm : (dryRun policy fuel).map (fun t => t.iterNumber)
      = List.range' 1 (dryRun policy fuel).length := by
    have := dryRunAux_map_iterNumber policy fuel startStatus
    simpa [dryRun, startStatus] using this
  have h1 : ((dryRun policy fuel).map (fun t => t.iterNumber))[i]?
      = some ((dryRun policy fuel).get ⟨i, h⟩).iterNumber := by
    simp [List.getElem?_map, List.getElem?_eq_getElem h]
  have h2 : ((dryRun policy fuel).map (fun t => t.iterNumber))[i]? = some (1 + i) := by
    rw [hm, List.getElem?_eq_getElem (by simpa using h)]
    simp [List.getElem_range']
  rw [h1] at h2
  exact Option.some_injective _ h2

/-! ### Claim theorems -/

/-- C1: the policy `pipe(constantDelay(300), concat(exponentialBackoff(200)),
concat(limitRetries(5)), capDelay(2000))`, simulated by `dryRun` from the
initial status (any sufficient fuel), yields exactly the six statuses
`{1,300}, {2,400}, {3,800}, {4,1600}, {5,2000}, {6,undefined}` in order. -/
theorem myPolicy_dryRun_eq (fuel : Nat) (h : 6 ≤ fuel) :
    dryRun myPolicy fuel =
      [⟨1, some 300⟩, ⟨2, some 400⟩, ⟨3, some 800⟩, ⟨4, some 1600⟩,
       ⟨5, some 2000⟩, ⟨6, none⟩] := by
  have h6 : dryRun myPolicy 6 =
      [⟨1, some 300⟩, ⟨2, some 400⟩, ⟨3, some 800⟩, ⟨4, some 1600⟩,
       ⟨5, some 2000⟩, ⟨6, none⟩] := by decide
  have hc : runComplete (dryRun myPolicy 6) := by
    rw [h6]
    exact ⟨⟨6, none⟩, by decide, rfl⟩
  calc dryRun myPolicy fuel
      = dryRun myPolicy 6 := dryRunAux_eq_of_le myPolicy h startStatus hc
    _ = _ := h6

/-- Witness for C1, at the least sufficient fuel. -/
theorem myPolicy_dryRun_eq_witness :
    dryRun myPolicy 6 =
      [⟨1, some 300⟩, ⟨2, some 400⟩, ⟨3, some 800⟩, ⟨4, some 1600⟩,
       ⟨5, some 2000⟩, ⟨6, none⟩] :=
  myPolicy_dryRun_eq 6 (by decide)

/-- C2: `concat(second)(first)(status)` is the maximum of the two delays when
both sub-policies yield one, and "no value" as soon as either yields
"no value". -/
theorem concat_merge (second first : RetryPolicy) (s : RetryStatus) :
    (∀ d1 d2, first s = some d1 → second s = some d2 →
        concat second first s = some (max d1 d2)) ∧
    ((first s = none ∨ second s = none) → concat second first s = none) := by
  constructor
  · intro d1 d2 h1 h2
    simp [concat, h1, h2]
  · rintro (h | h) <;>
      rcases h1 : first s with _ | d1 <;>
      rcases h2 : second s with _ | d2 <;>
      simp_all [concat]

/-- Witness for C2, at two constant policies on the initial status. -/
theorem concat_merge_witness :
    concat (constantDelay 200) (constantDelay 300) startStatus = some (max 300 200) :=
  (concat_merge (constantDelay 200) (constantDelay 300) startStatus).1 300 200 rfl rfl

/-- C3: `concat` is associative and commutative pointwise on statuses: stop
propagates regardless of merge order, and when both sides continue the
merged delay is the max, independent of argument order. -/
theorem concat_assoc_comm (a b c : RetryPolicy) (s : RetryStatus) :
    concat c (concat b a) s = concat (concat c b) a s ∧
    concat b a s = concat a b s := by
  rcases ha : a s with _ | x <;> rcases hb : b s with _ | y <;>
    rcases hc : c s with _ | z <;>
    simp [concat, ha, hb, hc, max_assoc, max_comm, max_left_comm]

/-- C4: `capDelay(m)(p)(s)` is "no value" iff `p(s)` is, and otherwise clamps
the inner delay to `min(m, delay)`; the cap never resurrects a stop. -/
theorem capDelay_clamp (m : ℤ) (p : RetryPolicy) (s : RetryStatus) :
    (capDelay m p s = none ↔ p s = none) ∧
    ∀ d, p s = some d → capDelay m p s = some (min m d) := by
  constructor
  · rcases hp : p s with _ | d <;> simp [capDelay, hp]
  · intro d hd
    simp [capDelay, hd]

/-- Witness for C4, clamping a constant policy. -/
theorem capDelay_clamp_witness :
    capDelay 5 (constantDelay 7) startStatus = some (min 5 7) :=
  (capDelay_clamp 5 (constantDelay 7) startStatus).2 7 rfl

/-- C5: a complete `dryRun` sequence has `iterNumber` fields exactly
`1, 2, 3, ...` in order, its last element is the terminal status with no
delay, and every earlier element still carries a delay (hence the length is
the number of steps up to and including the first "no value" decision). -/
theorem dryRun_sequence (policy : RetryPolicy) (fuel : Nat)
    (h : runComplete (dryRun policy fuel)) :
    (dryRun policy fuel).map (fun t => t.iterNumber)
        = List.range' 1 (dryRun policy fuel).length ∧
    (∀ t, (dryRun policy fuel).getLast? = some t → t.previousDelay = none) ∧
    ∀ t ∈ (dryRun policy fuel).dropLast, t.previousDelay ≠ none := by
  refine ⟨?_, ?_, dryRunAux_dropLast_delay policy fuel startStatus⟩
  · have := dryRunAux_map_iterNumber policy fuel startStatus
    simpa [dryRun, startStatus] using this
  · intro t ht
    rcases h with ⟨u, hu, hnone⟩
    rw [ht] at hu
    injection hu with e
    rw [e]
    exact hnone

/-- Witness for C5, on the policy that stops immediately. -/
theorem dryRun_sequence_witness :
    (dryRun (limitRetries 0) 1).map (fun t => t.iterNumber)
        = List.range' 1 (dryRun (limitRetries 0) 1).length :=
  (dryRun_sequence (limitRetries 0) 1 ⟨⟨1, none⟩, by decide, rfl⟩).1

/-- C6: `applyPolicy(policy)(s)` is exactly
`{iterNumber: s.iterNumber + 1, previousDelay: policy(s)}`, and along any
simulated sequence `iterNumber` increments by exactly 1 per step. -/
theorem applyPolicy_step (policy : RetryPolicy) (s : RetryStatus) :
    applyPolicy policy s = ⟨s.iterNumber + 1, policy s⟩ ∧
    ∀ (fuel i : Nat) (h : i + 1 < (dryRun policy fuel).length),
      ((dryRun policy fuel).get ⟨i + 1, h⟩).iterNumber
        = ((dryRun policy fuel).get ⟨i, Nat.lt_of_succ_lt h⟩).iterNumber + 1 := by
  refine ⟨rfl, ?_⟩
  intro fuel i h
  rw [dryRun_get_iterNumber policy fuel (i + 1) h,
      dryRun_get_iterNumber policy fuel i (Nat.lt_of_succ_lt h)]
  omega

/-- Witness for C6, on two consecutive steps of a constant policy. -/
theorem applyPolicy_step_witness :
    ((dryRun (constantDelay 1) 2).get ⟨1, by decide⟩).iterNumber
      = ((dryRun (constantDelay 1) 2).get ⟨0, by decide⟩).iterNumber + 1 :=
  (applyPolicy_step (constantDelay 1) startStatus).2 2 0 (by decide)

/-- C7: `limitRetries(n)` yields `0` while `iterNumber < n` and "no value"
once `iterNumber >= n`; it imposes no delay of its own. -/
theorem limitRetries_cutoff (n : Int) (s : RetryStatus) :
    ((s.iterNumber : Int) < n → limitRetries n s = some 0) ∧
    (n ≤ (s.iterNumber : Int) → limitRetries n s = none) := by
  refine ⟨fun h => ?_, fun h => ?_⟩
  · simp only [limitRetries]
    rw [if_neg (by omega)]
  · simp only [limitRetries]
    rw [if_pos (by omega)]

/-- Witness for C7, below and at the cutoff. -/
theorem limitRetries_cutoff_witness :
    limitRetries 2 startStatus = some 0 ∧
    limitRetries 0 startStatus = none :=
  ⟨(limitRetries_cutoff 2 startStatus).1 (by decide),
   (limitRetries_cutoff 0 startStatus).2 (by decide)⟩

/-- C8: for `d ≥ 0`, `exponentialBackoff(d)(s)` yields exactly
`d * 2 ^ s.iterNumber` and never yields "no value". -/
theorem exponentialBackoff_formula (d : ℤ) (h : 0 ≤ d) (s : RetryStatus) :
    exponentialBackoff d s = some (d * 2 ^ s.iterNumber) ∧
    exponentialBackoff d s ≠ none :=
  ⟨rfl, by simp [exponentialBackoff]⟩

/-- Witness for C8, at the base delay of the concrete scenario. -/
theorem exponentialBackoff_formula_witness :
    exponentialBackoff 200 startStatus = some (200 * 2 ^ startStatus.iterNumber) :=
  (exponentialBackoff_formula 200 (by decide) startStatus).1

/-- C9: `capDelay(m)` is idempotent: capping twice with the same bound is
the same as capping once. -/
theorem capDelay_idem (m : ℤ) (p : RetryPolicy) (s : RetryStatus) :
    capDelay m (capDelay m p) s = capDelay m p s := by
  rcases hp : p s with _ | d
  · simp [capDelay, hp]
  · simp [capDelay, hp]

/-- C10: a complete `dryRun` result is non-empty; a policy that stops on the
initial status yields the singleton `[{iterNumber: 1, previousDelay:
undefined}]`; and only the last element lacks a delay. -/
theorem dryRun_result_nonempty (policy : RetryPolicy) (fuel : Nat)
    (h : runComplete (dryRun policy fuel)) :
    dryRun policy fuel ≠ [] ∧
    (policy startStatus = none → dryRun policy fuel = [⟨1, none⟩]) ∧
    ∀ t ∈ (dryRun policy fuel).dropLast, t.previousDelay ≠ none := by
  refine ⟨?_, ?_, dryRunAux_dropLast_delay policy fuel startStatus⟩
  · intro hnil
    rw [hnil] at h
    exact runComplete_not_nil h
  · intro hp
    rcases fuel with _ | n
    · exact absurd h runComplete_not_nil
    · have hd : (applyPolicy policy startStatus).previousDelay = none := hp
      rw [dryRun, dryRunAux, if_pos hd]
      have : applyPolicy policy startStatus = ⟨1, none⟩ := by
        simp [applyPolicy, startStatus]
        exact hp
      rw [this]

/-- Witness for C10, on the policy that stops immediately. -/
theorem dryRun_result_nonempty_witness :
    dryRun (limitRetries 0) 3 = [⟨1, none⟩] :=
  (dryRun_result_nonempty (limitRetries 0) 3
    ⟨⟨1, none⟩, by decide, rfl⟩).2.1 rfl
